import Mathlib

/-!
# THE-HUB: player-statistics dashboard — verification of the scoring,
# trend-aggregation and presentation logic of `frontend/src/App.js`

Shallow embedding of the data-handling functions of the React frontend
(`App.js`).  Counting statistics carried by a player record are integers
that may be absent (`Option Int`, `none` = JS `undefined`); exact
arithmetic is over `ℚ`, idealising JavaScript number arithmetic.
`Number.prototype.toFixed(1)` and `Math.round` are modelled by their
ECMAScript definitions over exact rationals.
-/

namespace TheHub

/-- A player row as served by the backend `/api/players` endpoint and
consumed by `App.js`.  Counting-stat fields may be absent (`none`),
mirroring JS `undefined` on records that lack the stat. -/
structure Player where
  player_name : String := ""
  team : String := ""
  position : String := ""
  passing_yards : Option Int := none
  passing_tds : Option Int := none
  interceptions : Option Int := none
  rushing_yards : Option Int := none
  rushing_tds : Option Int := none
  receiving_yards : Option Int := none
  receiving_tds : Option Int := none
  receptions : Option Int := none
  fumbles_lost : Option Int := none
  snap_percentage : Option ℚ := none
  dk_salary : Option Int := none
  passing_attempts : Option Int := none
  deriving Repr, DecidableEq

/-- JS `x || 0` applied to a possibly-absent integer stat: `undefined`,
`null` and `0` all give `0`; any other integer passes through. -/
def orZero (v : Option Int) : Int := v.getD 0

/-- The `points` accumulation of `calculateFantasyPoints` (App.js
lines 118–136), before the final `toFixed(1)`:
passing_yards*0.04 + passing_tds*4 + interceptions*(-1) + rushing_yards*0.1
+ rushing_tds*6 + receiving_yards*0.1 + receiving_tds*6
+ receptions*(isPPR ? 1 : 0.5) + fumbles_lost*(-1), each stat defaulted
to 0 by `|| 0` when absent. -/
def calculateFantasyPointsRaw (player : Player) (isPPR : Bool) : ℚ :=
  (orZero player.passing_yards : ℚ) * (4/100)
  + (orZero player.passing_tds : ℚ) * 4
  + (orZero player.interceptions : ℚ) * (-1)
  + (orZero player.rushing_yards : ℚ) * (1/10)
  + (orZero player.rushing_tds : ℚ) * 6
  + (orZero player.receiving_yards : ℚ) * (1/10)
  + (orZero player.receiving_tds : ℚ) * 6
  + (orZero player.receptions : ℚ) * (if isPPR then 1 else 1/2)
  + (orZero player.fumbles_lost : ℚ) * (-1)

/-- ECMAScript `Number.prototype.toFixed(1)` on an exact rational,
as the signed count of tenths: for `x < 0` the integer is computed from
`-x` and negated (toFixed takes the absolute value and prepends a sign);
ties round to the larger magnitude. -/
def jsToFixed1Tenths (x : ℚ) : Int :=
  if x < 0 then -⌊(-x) * 10 + 1/2⌋ else ⌊x * 10 + 1/2⌋

/-- The numeric value denoted by the string `x.toFixed(1)` (what
`parseFloat` recovers from it). -/
def jsToFixed1 (x : ℚ) : ℚ := (jsToFixed1Tenths x : ℚ) / 10

/-- The string produced by `x.toFixed(1)`: optional sign, integer part,
decimal point, one digit (ECMAScript Number.prototype.toFixed, f = 1). -/
def toFixed1Str (x : ℚ) : String :=
  let n : Nat := (if x < 0 then ⌊(-x) * 10 + 1/2⌋ else ⌊x * 10 + 1/2⌋).toNat
  (if x < 0 then "-" else "") ++ toString (n / 10) ++ "." ++ toString (n % 10)

/-- `calculateFantasyPoints` (App.js lines 117–138): the `points`
accumulation followed by `return points.toFixed(1)` — a string rounded
to one decimal place. -/
def calculateFantasyPoints (player : Player) (isPPR : Bool) : String :=
  toFixed1Str (calculateFantasyPointsRaw player isPPR)

/-- The numeric score a consumer obtains from `calculateFantasyPoints`
(`parseFloat` of the returned `toFixed(1)` string), e.g. App.js line 890
`parseFloat(calculateFantasyPoints(player))`. -/
def scoreValue (player : Player) (isPPR : Bool) : ℚ :=
  jsToFixed1 (calculateFantasyPointsRaw player isPPR)

/-- Modelled from the spec: the scoring formula of §4.5, over plain
integer stats (the spec's fields, with absent counting stats already
defaulted to 0). -/
def specFormula (py ptd ints ry rtd recy rectd rec fl : Int)
    (fullPPR : Bool) : ℚ :=
  (py : ℚ) * (4/100) + (ptd : ℚ) * 4 + (ints : ℚ) * (-1)
  + (ry : ℚ) * (1/10) + (rtd : ℚ) * 6
  + (recy : ℚ) * (1/10) + (rectd : ℚ) * 6
  + (rec : ℚ) * (if fullPPR then 1 else (1/2))
  + (fl : ℚ) * (-1)

/-- C1: the fantasy-point computation equals the spec formula in the
selected mode, with every absent counting stat treated as 0; being a
total function of the record, it never fails on a record missing
optional stats. -/
theorem calculateFantasyPoints_matches_spec_formula
    (p : Player) (isPPR : Bool) :
    calculateFantasyPointsRaw p isPPR =
      specFormula (orZero p.passing_yards) (orZero p.passing_tds)
        (orZero p.interceptions) (orZero p.rushing_yards)
        (orZero p.rushing_tds) (orZero p.receiving_yards)
        (orZero p.receiving_tds) (orZero p.receptions)
        (orZero p.fumbles_lost) isPPR := rfl

/-- Proof helper: the points accumulation measured in hundredths of a
point is an integer (every scoring coefficient is a multiple of 0.01). -/
def centiPoints (p : Player) (isPPR : Bool) : Int :=
  4 * orZero p.passing_yards + 400 * orZero p.passing_tds
  - 100 * orZero p.interceptions
  + 10 * orZero p.rushing_yards + 600 * orZero p.rushing_tds
  + 10 * orZero p.receiving_yards + 600 * orZero p.receiving_tds
  + (if isPPR then 100 else 50) * orZero p.receptions
  - 100 * orZero p.fumbles_lost

theorem calculateFantasyPointsRaw_eq_centi (p : Player) (m : Bool) :
    calculateFantasyPointsRaw p m = (centiPoints p m : ℚ) / 100 := by
  unfold calculateFantasyPointsRaw centiPoints
  cases m <;> · simp only [Bool.false_eq_true, if_false, if_true]; push_cast; ring

theorem centiPoints_even (p : Player) (m : Bool) :
    centiPoints p m % 2 = 0 := by
  unfold centiPoints
  cases m <;> · simp only [if_true, if_false, Bool.false_eq_true]; omega

theorem jsToFixed1Tenths_of_even (M : Int) (h : M % 2 = 0) :
    jsToFixed1Tenths ((M : ℚ) / 100) = (M + 5) / 10 := by
  unfold jsToFixed1Tenths
  by_cases hM : (M : ℚ) / 100 < 0
  · rw [if_pos hM]
    have e : -((M : ℚ) / 100) * 10 + 1/2 = ((-M + 5 : ℤ) : ℚ) / ((10 : ℕ) : ℚ) := by
      push_cast; ring
    rw [e, Rat.floor_intCast_div_natCast]
    have : ((10 : ℕ) : ℤ) = 10 := by norm_num
    rw [this]
    omega
  · rw [if_neg hM]
    have e : (M : ℚ) / 100 * 10 + 1/2 = ((M + 5 : ℤ) : ℚ) / ((10 : ℕ) : ℚ) := by
      push_cast; ring
    rw [e, Rat.floor_intCast_div_natCast]
    norm_num

theorem scoreValue_eq (p : Player) (m : Bool) :
    scoreValue p m = (((centiPoints p m + 5) / 10 : ℤ) : ℚ) / 10 := by
  unfold scoreValue jsToFixed1
  rw [calculateFantasyPointsRaw_eq_centi,
    jsToFixed1Tenths_of_even _ (centiPoints_even p m)]

/-- C2: for a record with `receptions = r`, the full-PPR score minus the
half-PPR score is exactly `0.5 * r` — and this survives the final
`toFixed(1)` rounding, because both scores are integer counts of
hundredths with an even hundredths digit, so rounding to tenths commutes
with the shift by `0.5 * r`. -/
theorem ppr_delta (p : Player) (r : Int) (h : p.receptions = some r) :
    scoreValue p true - scoreValue p false = (r : ℚ) / 2 := by
  have hshift : centiPoints p true = centiPoints p false + 50 * r := by
    unfold centiPoints
    simp only [if_true, if_false, Bool.false_eq_true, orZero, h, Option.getD_some]
    ring
  have heven := centiPoints_even p false
  rw [scoreValue_eq, scoreValue_eq, hshift]
  have hdiv : ((centiPoints p false + 50 * r + 5) / 10 : ℤ)
      = (centiPoints p false + 5) / 10 + 5 * r := by omega
  rw [hdiv]
  push_cast
  ring

/-- C2 witness: a record with 14 receptions and 177 receiving yards. -/
theorem ppr_delta_witness :
    ({ receptions := some 14, receiving_yards := some 177 } : Player).receptions
        = some 14 ∧
    scoreValue { receptions := some 14, receiving_yards := some 177 } true
      - scoreValue { receptions := some 14, receiving_yards := some 177 } false
        = (14 : ℚ) / 2 :=
  ⟨rfl, ppr_delta { receptions := some 14, receiving_yards := some 177 } 14 rfl⟩

/-- A record with 1 passing yard: its exact score is 0.04 points. -/
def pyOne : Player := { passing_yards := some 1 }

/-- C3 counterexample: the scoring function does not return the
unrounded result.  On a record whose exact score is 0.04, it returns the
string `"0.0"` (numeric value 0), which is the one-decimal rounding, not
the unrounded 0.04. -/
theorem scoring_unrounded_counterexample :
    calculateFantasyPointsRaw pyOne true = 1/25 ∧
    calculateFantasyPoints pyOne true = "0.0" ∧
    scoreValue pyOne true = 0 ∧ (0 : ℚ) ≠ 1/25 := by
  refine ⟨by unfold calculateFantasyPointsRaw pyOne orZero; norm_num, ?_, ?_, by norm_num⟩
  · have hraw : calculateFantasyPointsRaw pyOne true = 1/25 := by
      unfold calculateFantasyPointsRaw pyOne orZero; norm_num
    unfold calculateFantasyPoints
    rw [hraw]
    unfold toFixed1Str
    norm_num
    rfl
  · have : centiPoints pyOne true = 4 := by unfold centiPoints pyOne orZero; norm_num
    rw [scoreValue_eq, this]
    norm_num

/-- C3 amended: `calculateFantasyPoints` returns `points.toFixed(1)` —
the one-decimal rounding of the exact formula value (as a string; its
numeric value is `jsToFixed1` of the raw score) — and on a record whose
exact score has more than one decimal digit the returned value differs
from the unrounded score. -/
theorem scoring_returns_rounded :
    (∀ p m, calculateFantasyPoints p m
        = toFixed1Str (calculateFantasyPointsRaw p m)) ∧
    (∀ p m, scoreValue p m = jsToFixed1 (calculateFantasyPointsRaw p m)) ∧
    scoreValue pyOne true ≠ calculateFantasyPointsRaw pyOne true := by
  refine ⟨fun p m => rfl, fun p m => rfl, ?_⟩
  have h1 : scoreValue pyOne true = 0 := by
    have : centiPoints pyOne true = 4 := by unfold centiPoints pyOne orZero; norm_num
    rw [scoreValue_eq, this]; norm_num
  have h2 : calculateFantasyPointsRaw pyOne true = 1/25 := by
    unfold calculateFantasyPointsRaw pyOne orZero; norm_num
  rw [h1, h2]
  norm_num

/-- C8: the scoring computation is a pure function of the player record
and the explicitly selected scoring mode: two evaluations on equal
inputs under equal modes return bit-identical results (here, the
identical `toFixed(1)` string). -/
theorem scoring_deterministic (p₁ p₂ : Player) (m₁ m₂ : Bool)
    (hp : p₁ = p₂) (hm : m₁ = m₂) :
    calculateFantasyPoints p₁ m₁ = calculateFantasyPoints p₂ m₂ := by
  rw [hp, hm]

/-- C8 witness: two evaluations on the same concrete record and mode. -/
theorem scoring_deterministic_witness :
    pyOne = pyOne ∧ (true = true) ∧
    calculateFantasyPoints pyOne true = calculateFantasyPoints pyOne true :=
  ⟨rfl, rfl, scoring_deterministic pyOne pyOne true true rfl rfl⟩

/-! ## Trend aggregation (`fetchTrendData`, App.js lines 850–912)

The function fetches one page of player rows per week in
`[startWeek, endWeek]` (the `for` loop on line 856), combines them into
`playerMap` keyed by `` `${player_name}-${position}` `` (lines 871–893),
and sorts the values by position priority then name (lines 895–902).
The backend responses are modelled by an oracle `fetch : Int → List
Player` giving the rows returned for each requested week. -/

/-- One value of `playerMap`: player name, position, team, and the
sparse week → (row, fantasy_points) mapping (a JS object with numeric
keys; weeks are inserted in ascending order and an existing week is
overwritten in place). -/
structure TrendEntry where
  player_name : String
  position : String
  team : String
  weeks : List (Int × Player × ℚ)
  deriving Repr, DecidableEq

/-- The `playerMap` key `` `${player.player_name}-${player.position}` ``. -/
def trendKey (p : Player) : String := p.player_name ++ "-" ++ p.position

/-- `weeks[weekNum] = value`: overwrite in place if present, else append. -/
def upsertWeek : List (Int × Player × ℚ) → Int → Player × ℚ →
    List (Int × Player × ℚ)
  | [], w, v => [(w, v)]
  | (w', v') :: rest, w, v =>
      if w' = w then (w, v) :: rest else (w', v') :: upsertWeek rest w v

/-- `playerMap.has(key)` on the insertion-ordered association list. -/
def mapHas (m : List (String × TrendEntry)) (k : String) : Bool :=
  m.any (fun kv => kv.1 == k)

/-- `playerMap.get(key).weeks[weekNum] = value` (update in place). -/
def mapUpdate (k : String) (w : Int) (v : Player × ℚ) :
    List (String × TrendEntry) → List (String × TrendEntry)
  | [] => []
  | (k', e) :: rest =>
      if k' = k then (k', { e with weeks := upsertWeek e.weeks w v }) :: rest
      else (k', e) :: mapUpdate k w v rest

/-- Lines 878–892: for one `player` row of week `weekNum`, create the
map entry if absent (name/position/team and empty `weeks`), then set
`weeks[weekNum]` to the row enriched with
`fantasy_points: parseFloat(calculateFantasyPoints(player)) || 0`
(`|| 0` only turns `0` into `0`, so the stored value is `scoreValue`). -/
def insertRow (isPPR : Bool) (weekNum : Int)
    (m : List (String × TrendEntry)) (p : Player) :
    List (String × TrendEntry) :=
  mapUpdate (trendKey p) weekNum (p, scoreValue p isPPR)
    (if mapHas m (trendKey p) then m
     else m ++ [(trendKey p,
       { player_name := p.player_name, position := p.position,
         team := p.team, weeks := [] })])

/-- `weekData.forEach(player => ...)` for one response. -/
def processWeek (isPPR : Bool) (weekNum : Int)
    (m : List (String × TrendEntry)) (weekData : List Player) :
    List (String × TrendEntry) :=
  weekData.foldl (insertRow isPPR weekNum) m

/-- `results.forEach((response, index) => ...)`: the response at
`index` holds week `startWeek + index`, so the week number advances by
one per response. -/
def processResultsAux (isPPR : Bool) (weekNum : Int)
    (m : List (String × TrendEntry)) :
    List (List Player) → List (String × TrendEntry)
  | [] => m
  | wd :: rest =>
      processResultsAux isPPR (weekNum + 1) (processWeek isPPR weekNum m wd) rest

/-- Lines 871–893: build `playerMap` from all weekly responses. -/
def processResults (isPPR : Bool) (startWeek : Int)
    (results : List (List Player)) : List (String × TrendEntry) :=
  processResultsAux isPPR startWeek [] results

/-- The weeks requested by the `for` loop
`for (let week = startWeek; week <= endWeek; week++)`: empty when
`startWeek > endWeek`. -/
def weeksRange (s e : Int) : List Int :=
  (List.range (e + 1 - s).toNat).map (fun i => s + (i : Int))

/-- Line 898: `const posOrder = ['QB', 'RB', 'WR', 'TE']`. -/
def posOrder : List String := ["QB", "RB", "WR", "TE"]

/-- `posOrder.indexOf(pos)`: −1 when the position is not listed. -/
def posIndex (pos : String) : Int :=
  match posOrder.indexOf? pos with
  | some i => (i : Int)
  | none => -1

/-- Code-unit lexicographic `<` on character lists — the comparison
underlying `localeCompare` for the ASCII player names of the feed. -/
def strLtB : List Char → List Char → Bool
  | _, [] => false
  | [], _ :: _ => true
  | a :: as, b :: bs =>
      if a.toNat < b.toNat then true
      else if b.toNat < a.toNat then false
      else strLtB as bs

/-- `a.localeCompare(b)` (restricted to the feed's ASCII names):
negative when `a` sorts first, positive when `b` sorts first, 0 on
equal strings. -/
def localeCompare (a b : String) : Int :=
  if strLtB a.data b.data then -1
  else if strLtB b.data a.data then 1
  else 0

/-- The sort comparator of lines 896–902: position-priority difference
when positions differ, else `localeCompare` on names. -/
def trendCompare (a b : TrendEntry) : Int :=
  if a.position ≠ b.position then posIndex a.position - posIndex b.position
  else localeCompare a.player_name b.player_name

/-- `a` may precede `b` under the comparator (`compare(a,b) <= 0`). -/
def trendLE (a b : TrendEntry) : Bool := trendCompare a b ≤ 0

/-- Stable insertion of `x` into a sorted list. -/
def insertSorted {α : Type} (le : α → α → Bool) (x : α) : List α → List α
  | [] => [x]
  | y :: ys => if le x y then x :: y :: ys else y :: insertSorted le x ys

/-- `Array.prototype.sort` with a consistent comparator, modelled as a
stable insertion sort. -/
def sortBy {α : Type} (le : α → α → Bool) : List α → List α
  | [] => []
  | x :: xs => insertSorted le x (sortBy le xs)

/-- `fetchTrendData` (App.js lines 850–912): fetch each week of the
range, combine into `playerMap`, return the sorted value array. -/
def fetchTrendData (isPPR : Bool) (startWeek endWeek : Int)
    (fetch : Int → List Player) : List TrendEntry :=
  sortBy trendLE
    ((processResults isPPR startWeek ((weeksRange startWeek endWeek).map fetch)).map
      Prod.snd)

/-- `fetchTrendData` as seen by its caller: the function body contains
no range validation and no `throw` — its `try`/`catch` only covers
transport failures of the HTTP client, which the total oracle `fetch`
models away — so every call returns normally (`Except.ok`). -/
def fetchTrendDataE (isPPR : Bool) (startWeek endWeek : Int)
    (fetch : Int → List Player) : Except String (List TrendEntry) :=
  Except.ok (fetchTrendData isPPR startWeek endWeek fetch)

theorem weeksRange_eq_nil {s e : Int} (h : e < s) : weeksRange s e = [] := by
  unfold weeksRange
  have : (e + 1 - s).toNat = 0 := by omega
  rw [this]
  rfl

theorem processResultsAux_all_nil (isPPR : Bool) (w : Int)
    (m : List (String × TrendEntry)) (results : List (List Player))
    (h : ∀ r ∈ results, r = []) :
    processResultsAux isPPR w m results = m := by
  induction results generalizing w m with
  | nil => rfl
  | cons wd rest ih =>
      have hwd : wd = [] := h wd (List.mem_cons_self wd rest)
      unfold processResultsAux
      rw [hwd]
      exact ih _ _ (fun r hr => h r (List.mem_cons_of_mem _ hr))

/-- C6 counterexample: called with `startWeek = 6 > 4 = endWeek` the
trend builder does not raise any error — the week loop body never runs
and the call returns an empty array, even when the backend has data. -/
theorem trend_reversed_range_counterexample :
    fetchTrendDataE true 6 4 (fun _ => [pyOne]) = Except.ok [] := rfl

/-- C6 amended: `startWeek > endWeek` is not rejected; it yields an
empty array exactly like a week range that matches no records — both
return `Except.ok []`, and no `InvalidRangeError` exists in the code. -/
theorem trend_reversed_range_returns_empty :
    (∀ (isPPR : Bool) (s e : Int) (fetch : Int → List Player), e < s →
      fetchTrendDataE isPPR s e fetch = Except.ok []) ∧
    (∀ (isPPR : Bool) (s e : Int) (fetch : Int → List Player),
      (∀ w, fetch w = []) → fetchTrendDataE isPPR s e fetch = Except.ok []) := by
  constructor
  · intro isPPR s e fetch h
    unfold fetchTrendDataE fetchTrendData
    rw [weeksRange_eq_nil h]
    rfl
  · intro isPPR s e fetch h
    unfold fetchTrendDataE fetchTrendData processResults
    rw [processResultsAux_all_nil _ _ _ _ (fun r hr => ?_)]
    · rfl
    · rcases List.mem_map.mp hr with ⟨w, _, rfl⟩
      exact h w

/-- C6 witness: both hypotheses discharged on concrete calls — a
reversed range with data behind it, and a valid range with no data. -/
theorem trend_reversed_range_returns_empty_witness :
    fetchTrendDataE true 6 4 (fun _ => [pyOne]) = Except.ok [] ∧
    fetchTrendDataE true 1 3 (fun _ => []) = Except.ok [] :=
  ⟨trend_reversed_range_returns_empty.1 true 6 4 _ (by decide),
   trend_reversed_range_returns_empty.2 true 1 3 _ (fun _ => rfl)⟩

/-- Week-5 and week-6 style rows for the same real player whose raw
name carries a generational suffix in one feed week and not the other. -/
def obJr : Player :=
  { player_name := "Odell Beckham Jr.", position := "WR", team := "BAL",
    receiving_yards := some 50, receptions := some 5 }

def obPlain : Player :=
  { player_name := "Odell Beckham", position := "WR", team := "BAL",
    receiving_yards := some 40, receptions := some 4 }

/-- Backend oracle: week 1 returns the suffixed row, week 2 the plain
row. -/
def obFeed : Int → List Player :=
  fun w => if w = 1 then [obJr] else if w = 2 then [obPlain] else []

/-- C4 counterexample: the two weekly records of the same real player,
whose raw names differ only by the suffix `"Jr."`, come out as TWO
separate one-week series (`"Odell Beckham"` holding week 2 and
`"Odell Beckham Jr."` holding week 1), not one series holding both
weeks: the map is keyed by the raw name string, not by a canonical
identity. -/
theorem trend_suffix_split_counterexample :
    (fetchTrendData true 1 2 obFeed).map
        (fun e => (e.player_name, e.weeks.map Prod.fst))
      = [("Odell Beckham", [2]), ("Odell Beckham Jr.", [1])] := by decide

/-- A two-week feed delivering `p₁` in week 1 and `p₂` in week 2. -/
def twoWeekFeed (p₁ p₂ : Player) : Int → List Player :=
  fun w => if w = 1 then [p₁] else if w = 2 then [p₂] else []

theorem trendKey_injective {p₁ p₂ : Player} (hpos : p₁.position = p₂.position)
    (hname : p₁.player_name ≠ p₂.player_name) : trendKey p₁ ≠ trendKey p₂ := by
  intro hk
  apply hname
  have hdata : (p₁.player_name ++ "-" ++ p₁.position).data
      = (p₂.player_name ++ "-" ++ p₂.position).data := congrArg String.data hk
  rw [hpos] at hdata
  simp only [String.data_append, List.append_assoc] at hdata
  exact String.ext ((List.append_left_inj _).mp hdata)

/-- C4 amended: the trend aggregation groups by the raw
`` `${player_name}-${position}` `` string, not by canonical identity:
any two weekly records whose raw names differ (in particular name
variants of one real player, such as with and without a generational
suffix) produce two separate series, each holding only its own week. -/
theorem trend_groups_by_raw_name (isPPR : Bool) (p₁ p₂ : Player)
    (hpos : p₁.position = p₂.position)
    (hname : p₁.player_name ≠ p₂.player_name) :
    (fetchTrendData isPPR 1 2 (twoWeekFeed p₁ p₂)).length = 2 ∧
    (∀ en ∈ fetchTrendData isPPR 1 2 (twoWeekFeed p₁ p₂),
      en.weeks.length = 1) ∧
    p₁.player_name
      ∈ (fetchTrendData isPPR 1 2 (twoWeekFeed p₁ p₂)).map TrendEntry.player_name ∧
    p₂.player_name
      ∈ (fetchTrendData isPPR 1 2 (twoWeekFeed p₁ p₂)).map TrendEntry.player_name := by
  have hk := trendKey_injective hpos hname
  have hk' : trendKey p₂ ≠ trendKey p₁ := Ne.symm hk
  have hfeed : (weeksRange 1 2).map (twoWeekFeed p₁ p₂) = [[p₁], [p₂]] := rfl
  have hbody : fetchTrendData isPPR 1 2 (twoWeekFeed p₁ p₂)
      = sortBy trendLE ((processResults isPPR 1 [[p₁], [p₂]]).map Prod.snd) := by
    unfold fetchTrendData
    rw [hfeed]
  have hmap : processResults isPPR 1 [[p₁], [p₂]]
      = [(trendKey p₁,
          { player_name := p₁.player_name, position := p₁.position,
            team := p₁.team, weeks := [(1, p₁, scoreValue p₁ isPPR)] }),
         (trendKey p₂,
          { player_name := p₂.player_name, position := p₂.position,
            team := p₂.team, weeks := [(2, p₂, scoreValue p₂ isPPR)] })] := by
    unfold processResults
    simp [processResultsAux, processWeek, insertRow, mapHas, mapUpdate,
      upsertWeek, hk, hk']
  rw [hbody, hmap]
  by_cases hle : trendLE
      { player_name := p₁.player_name, position := p₁.position,
        team := p₁.team, weeks := [(1, p₁, scoreValue p₁ isPPR)] }
      { player_name := p₂.player_name, position := p₂.position,
        team := p₂.team, weeks := [(2, p₂, scoreValue p₂ isPPR)] }
  · simp [sortBy, insertSorted, hle]
  · simp [sortBy, insertSorted, hle]

/-- C4 amended-claim witness: the Odell Beckham suffix variants. -/
theorem trend_groups_by_raw_name_witness :
    obJr.position = obPlain.position ∧
    obJr.player_name ≠ obPlain.player_name ∧
    (fetchTrendData true 1 2 (twoWeekFeed obJr obPlain)).length = 2 :=
  ⟨rfl, by decide,
    (trend_groups_by_raw_name true obJr obPlain rfl (by decide)).1⟩

/-! ### Order-theoretic facts about the trend comparator -/

theorem strLtB_asymm (x y : List Char) (h : strLtB x y = true) :
    strLtB y x = false := by
  induction x generalizing y with
  | nil =>
      cases y with
      | nil => simp [strLtB] at h
      | cons b bs => rfl
  | cons a as ih =>
      cases y with
      | nil => simp [strLtB] at h
      | cons b bs =>
          unfold strLtB at h ⊢
          split_ifs at h ⊢ <;>
            first
            | rfl
            | omega
            | exact ih bs h

theorem strLtB_false_trans (x y z : List Char) (h1 : strLtB y x = false)
    (h2 : strLtB z y = false) : strLtB z x = false := by
  induction x generalizing y z with
  | nil =>
      cases z with
      | nil => rfl
      | cons c cs => rfl
  | cons a as ih =>
      cases y with
      | nil => simp [strLtB] at h1
      | cons b bs =>
          cases z with
          | nil => simp [strLtB] at h2
          | cons c cs =>
              unfold strLtB at h1 h2 ⊢
              split_ifs at h1 h2 ⊢ <;>
                first
                | rfl
                | omega
                | exact ih bs cs h1 h2

theorem localeCompare_neg (a b : String) :
    localeCompare b a = -localeCompare a b := by
  unfold localeCompare
  cases hab : strLtB a.data b.data <;> cases hba : strLtB b.data a.data <;>
    simp [hab, hba]
  exact absurd (strLtB_asymm _ _ hab) (by simp [hba])

theorem localeCompare_nonpos (a b : String) :
    localeCompare a b ≤ 0 ↔ strLtB b.data a.data = false := by
  unfold localeCompare
  cases hab : strLtB a.data b.data <;> cases hba : strLtB b.data a.data <;>
    simp [hab, hba]
  exact absurd (strLtB_asymm _ _ hab) (by simp [hba])

theorem localeCompare_le_trans {x y z : String}
    (h1 : localeCompare x y ≤ 0) (h2 : localeCompare y z ≤ 0) :
    localeCompare x z ≤ 0 := by
  rw [localeCompare_nonpos] at h1 h2 ⊢
  exact strLtB_false_trans _ _ _ h1 h2

theorem posIndex_inj :
    ∀ s ∈ posOrder, ∀ t ∈ posOrder, posIndex s = posIndex t → s = t := by
  decide

theorem trendCompare_neg (a b : TrendEntry) :
    trendCompare b a = -trendCompare a b := by
  unfold trendCompare
  by_cases h : a.position = b.position
  · rw [if_neg (fun hne => hne h.symm), if_neg (fun hne => hne h)]
    exact localeCompare_neg _ _
  · rw [if_pos (Ne.symm h), if_pos h]
    ring

theorem trendLE_total (a b : TrendEntry) :
    trendLE a b = true ∨ trendLE b a = true := by
  unfold trendLE
  rw [trendCompare_neg]
  simp only [decide_eq_true_eq]
  omega

theorem trendLE_trans {a b c : TrendEntry}
    (ha : a.position ∈ posOrder) (hb : b.position ∈ posOrder)
    (hc : c.position ∈ posOrder)
    (h1 : trendLE a b = true) (h2 : trendLE b c = true) :
    trendLE a c = true := by
  simp only [trendLE, decide_eq_true_eq] at h1 h2 ⊢
  unfold trendCompare at h1 h2 ⊢
  by_cases hab : a.position = b.position <;>
    by_cases hbc : b.position = c.position
  · have hac : a.position = c.position := hab.trans hbc
    rw [if_neg (fun hne => hne hab)] at h1
    rw [if_neg (fun hne => hne hbc)] at h2
    rw [if_neg (fun hne => hne hac)]
    exact localeCompare_le_trans h1 h2
  · have hac : a.position ≠ c.position := fun h => hbc (hab ▸ h)
    rw [if_pos hbc] at h2
    rw [if_pos hac, hab]
    exact h2
  · have hac : a.position ≠ c.position := fun h => hab (by rw [h, ← hbc])
    rw [if_pos hab] at h1
    rw [if_pos hac, ← hbc]
    exact h1
  · rw [if_pos hab] at h1
    rw [if_pos hbc] at h2
    by_cases hac : a.position = c.position
    · exfalso
      have hpeq : posIndex a.position = posIndex c.position := by rw [hac]
      have hpab : posIndex a.position = posIndex b.position := by omega
      exact hab (posIndex_inj a.position ha b.position hb hpab)
    · rw [if_pos hac]
      omega

/-! ### Sortedness of the insertion-sort model -/

theorem mem_insertSorted {α : Type} (le : α → α → Bool) (x a : α)
    (l : List α) : a ∈ insertSorted le x l ↔ a = x ∨ a ∈ l := by
  induction l with
  | nil => simp [insertSorted]
  | cons y ys ih =>
      unfold insertSorted
      by_cases h : le x y = true
      · simp [h]
      · simp only [h, if_false, List.mem_cons, ih, Bool.false_eq_true]
        tauto

theorem pairwise_insertSorted {α : Type} (le : α → α → Bool)
    (P : α → Prop)
    (total : ∀ a b, le a b = true ∨ le b a = true)
    (transP : ∀ a b c, P a → P b → P c →
      le a b = true → le b c = true → le a c = true)
    (x : α) (hx : P x) (l : List α) (hl : ∀ y ∈ l, P y)
    (h : l.Pairwise (fun a b => le a b = true)) :
    (insertSorted le x l).Pairwise (fun a b => le a b = true) := by
  induction l with
  | nil => simp [insertSorted]
  | cons y ys ih =>
      rw [List.pairwise_cons] at h
      obtain ⟨hy, hys⟩ := h
      have hyP : P y := hl y (List.mem_cons_self y ys)
      have hysP : ∀ z ∈ ys, P z := fun z hz => hl z (List.mem_cons_of_mem _ hz)
      unfold insertSorted
      by_cases hxy : le x y = true
      · rw [if_pos hxy, List.pairwise_cons]
        refine ⟨fun z hz => ?_, List.pairwise_cons.mpr ⟨hy, hys⟩⟩
        rcases List.mem_cons.mp hz with rfl | hz'
        · exact hxy
        · exact transP x y z hx hyP (hysP z hz') hxy (hy z hz')
      · rw [if_neg hxy, List.pairwise_cons]
        refine ⟨fun z hz => ?_, ih hysP hys⟩
        rcases (mem_insertSorted le x z ys).mp hz with hzx | hz'
        · rw [hzx]
          exact (total x y).resolve_left hxy
        · exact hy z hz'

theorem mem_sortBy {α : Type} (le : α → α → Bool) (a : α) (l : List α) :
    a ∈ sortBy le l ↔ a ∈ l := by
  induction l with
  | nil => simp [sortBy]
  | cons y ys ih =>
      unfold sortBy
      rw [mem_insertSorted, ih, List.mem_cons]

theorem pairwise_sortBy {α : Type} (le : α → α → Bool)
    (P : α → Prop)
    (total : ∀ a b, le a b = true ∨ le b a = true)
    (transP : ∀ a b c, P a → P b → P c →
      le a b = true → le b c = true → le a c = true)
    (l : List α) (hl : ∀ y ∈ l, P y) :
    (sortBy le l).Pairwise (fun a b => le a b = true) := by
  induction l with
  | nil => simp [sortBy]
  | cons y ys ih =>
      unfold sortBy
      refine pairwise_insertSorted le P total transP y
        (hl y (List.mem_cons_self y ys)) (sortBy le ys)
        (fun z hz => hl z (List.mem_cons_of_mem _ ((mem_sortBy le z ys).mp hz)))
        (ih (fun z hz => hl z (List.mem_cons_of_mem _ hz)))

/-! ### Positions of aggregated entries come from the input rows -/

theorem mapUpdate_positions (k : String) (w : Int) (v : Player × ℚ)
    (l : List (String × TrendEntry)) :
    (mapUpdate k w v l).map (fun kv => kv.2.position)
      = l.map (fun kv => kv.2.position) := by
  induction l with
  | nil => rfl
  | cons kv rest ih =>
      obtain ⟨k', e⟩ := kv
      unfold mapUpdate
      by_cases h : k' = k
      · rw [if_pos h]
        rfl
      · rw [if_neg h]
        simp only [List.map_cons, ih]

theorem insertRow_position_mem {Q : String → Prop} (isPPR : Bool) (w : Int)
    (m : List (String × TrendEntry)) (p : Player)
    (hm : ∀ kv ∈ m, Q kv.2.position) (hp : Q p.position) :
    ∀ kv ∈ insertRow isPPR w m p, Q kv.2.position := by
  intro kv hkv
  have hpos : kv.2.position
      ∈ (insertRow isPPR w m p).map (fun kv => kv.2.position) :=
    List.mem_map_of_mem _ hkv
  unfold insertRow at hpos
  by_cases hhas : mapHas m (trendKey p) = true
  · rw [if_pos hhas, mapUpdate_positions] at hpos
    obtain ⟨kv', hkv', heq⟩ := List.mem_map.mp hpos
    exact heq ▸ hm kv' hkv'
  · rw [if_neg hhas, mapUpdate_positions, List.map_append] at hpos
    rcases List.mem_append.mp hpos with hl | hr
    · obtain ⟨kv', hkv', heq⟩ := List.mem_map.mp hl
      exact heq ▸ hm kv' hkv'
    · simp only [List.map_cons, List.map_nil, List.mem_singleton] at hr
      rw [hr]
      exact hp

theorem processWeek_position_mem {Q : String → Prop} (isPPR : Bool) (w : Int)
    (m : List (String × TrendEntry)) (rows : List Player)
    (hm : ∀ kv ∈ m, Q kv.2.position) (hr : ∀ p ∈ rows, Q p.position) :
    ∀ kv ∈ processWeek isPPR w m rows, Q kv.2.position := by
  induction rows generalizing m with
  | nil => exact hm
  | cons p rest ih =>
      have hstep := insertRow_position_mem isPPR w m p hm
        (hr p (List.mem_cons_self p rest))
      exact ih _ hstep (fun q hq => hr q (List.mem_cons_of_mem _ hq))

theorem processResultsAux_position_mem {Q : String → Prop} (isPPR : Bool)
    (w : Int) (m : List (String × TrendEntry)) (results : List (List Player))
    (hm : ∀ kv ∈ m, Q kv.2.position)
    (hr : ∀ r ∈ results, ∀ p ∈ r, Q p.position) :
    ∀ kv ∈ processResultsAux isPPR w m results, Q kv.2.position := by
  induction results generalizing w m with
  | nil => exact hm
  | cons wd rest ih =>
      have hstep := processWeek_position_mem isPPR w m wd hm
        (hr wd (List.mem_cons_self wd rest))
      exact ih _ _ hstep (fun r hrr => hr r (List.mem_cons_of_mem _ hrr))

/-- The presentation-contract order of the trend output: strictly
increasing position priority (QB before RB before WR before TE), and
within a position group non-decreasing alphabetical player name. -/
def trendOrdered (a b : TrendEntry) : Prop :=
  posIndex a.position < posIndex b.position ∨
  (a.position = b.position ∧ localeCompare a.player_name b.player_name ≤ 0)

theorem trendLE_to_ordered {a b : TrendEntry}
    (ha : a.position ∈ posOrder) (hb : b.position ∈ posOrder)
    (h : trendLE a b = true) : trendOrdered a b := by
  simp only [trendLE, decide_eq_true_eq] at h
  unfold trendCompare at h
  by_cases hpos : a.position = b.position
  · rw [if_neg (fun hne => hne hpos)] at h
    exact Or.inr ⟨hpos, h⟩
  · rw [if_pos hpos] at h
    have hne : posIndex a.position ≠ posIndex b.position :=
      fun he => hpos (posIndex_inj a.position ha b.position hb he)
    exact Or.inl (by omega)

/-- C5: whenever every fetched row carries one of the four list
positions (the data model guarantees QB/RB/WR/TE), the trend output is
sorted by position in the fixed priority order QB, RB, WR, TE and
alphabetically by player name within each position group. -/
theorem trend_output_ordered (isPPR : Bool) (s e : Int)
    (fetch : Int → List Player)
    (hfetch : ∀ w ∈ weeksRange s e, ∀ p ∈ fetch w, p.position ∈ posOrder) :
    (fetchTrendData isPPR s e fetch).Pairwise trendOrdered := by
  have hrows : ∀ r ∈ (weeksRange s e).map fetch, ∀ p ∈ r,
      p.position ∈ posOrder := by
    intro r hr p hp
    obtain ⟨w, hw, rfl⟩ := List.mem_map.mp hr
    exact hfetch w hw p hp
  have hentries : ∀ en ∈ (processResults isPPR s
      ((weeksRange s e).map fetch)).map Prod.snd, en.position ∈ posOrder := by
    intro en hen
    obtain ⟨kv, hkv, rfl⟩ := List.mem_map.mp hen
    exact processResultsAux_position_mem isPPR s [] _
      (fun kv' h => absurd h (List.not_mem_nil kv')) hrows kv hkv
  have hpair := pairwise_sortBy trendLE (fun en => en.position ∈ posOrder)
    trendLE_total (fun a b c ha hb hc => trendLE_trans ha hb hc)
    _ hentries
  have hmem : ∀ en ∈ fetchTrendData isPPR s e fetch, en.position ∈ posOrder := by
    intro en hen
    unfold fetchTrendData at hen
    exact hentries en ((mem_sortBy _ _ _).mp hen)
  exact hpair.imp_of_mem (fun {x y} hx hy => trendLE_to_ordered
    (hmem x hx) (hmem y hy))

/-- C5 witness: a concrete two-week feed with a TE, a QB and two WRs;
the ordering hypothesis holds and the output is pairwise ordered. -/
theorem trend_output_ordered_witness :
    (∀ w ∈ weeksRange 1 2, ∀ p ∈ obFeed w, p.position ∈ posOrder) ∧
    (fetchTrendData true 1 2 obFeed).Pairwise trendOrdered :=
  ⟨by decide, trend_output_ordered true 1 2 obFeed (by decide)⟩

/-! ## Flat-table presentation (`columnDefs`) and CSV export -/

/-- ECMAScript `Math.round`: round to nearest, ties toward +∞. -/
def jsRound (x : ℚ) : Int := ⌊x + 1/2⌋

/-- The `'# Snaps'` cell renderer (App.js lines 360–372):
`params.value && params.value > 0 ? Math.round(params.value) : '-'` —
an absent value (`undefined`) and the value `0` are both falsy, so both
fall through to `'-'`. -/
def renderSnaps : Option ℚ → String
  | none => "-"
  | some x => if x ≠ 0 ∧ 0 < x then toString (jsRound x) else "-"

/-- C7 counterexample: a recorded zero-snap game renders exactly like a
record with no snap data at all — both show `'-'`; the consumer does
not distinguish absence from zero. -/
theorem snaps_zero_vs_absent_counterexample :
    renderSnaps (some 0) = renderSnaps none ∧ renderSnaps none = "-" := by
  constructor
  · show (if (0 : ℚ) ≠ 0 ∧ (0 : ℚ) < 0 then toString (jsRound 0) else "-") = "-"
    rw [if_neg]
    intro h
    exact h.1 rfl
  · rfl

/-- C7 amended: the snap-count renderer collapses absence and zero:
`'-'` is shown when the field is absent and when the value is `≤ 0`,
and only a strictly positive snap value is displayed (via
`Math.round`). -/
theorem snaps_rendering_collapses_absence_and_zero :
    renderSnaps none = "-" ∧
    (∀ x : ℚ, x ≤ 0 → renderSnaps (some x) = "-") ∧
    (∀ x : ℚ, 0 < x → renderSnaps (some x) = toString (jsRound x)) := by
  refine ⟨rfl, fun x hx => ?_, fun x hx => ?_⟩
  · show (if x ≠ 0 ∧ 0 < x then toString (jsRound x) else "-") = "-"
    rw [if_neg]
    intro h
    exact absurd hx (not_le.mpr h.2)
  · show (if x ≠ 0 ∧ 0 < x then toString (jsRound x) else "-")
        = toString (jsRound x)
    rw [if_pos ⟨Ne.symm (ne_of_lt hx), hx⟩]

/-- C7 witness: an inactive player's recorded −3 (and 0) show `'-'`;
40 snaps show the rounded number. -/
theorem snaps_rendering_witness :
    ((-3 : ℚ) ≤ 0 ∧ renderSnaps (some (-3)) = "-") ∧
    ((0 : ℚ) < 40 ∧ renderSnaps (some 40) = toString (jsRound 40)) :=
  ⟨⟨by decide, snaps_rendering_collapses_absence_and_zero.2.1 (-3) (by decide)⟩,
   ⟨by decide, snaps_rendering_collapses_absence_and_zero.2.2 40 (by decide)⟩⟩

/-- The synthesized attempt count of the `'Cmp-Att'` column (App.js
lines 429–433): `passing_yards > 0 ? Math.ceil(passing_yards / 8.5) : 0`
(an absent `passing_yards` compares false in JS, like 0). -/
def cmpAtt (py : Int) : Int :=
  if 0 < py then ⌈(py : ℚ) / (17/2)⌉ else 0

/-- The `'Cmp-Att'` valueGetter: completions are estimated as
`Math.ceil(att * 0.65)` and the cell shows `'-'` unless `att > 0`. -/
def cmpAttDisplay (p : Player) : String :=
  if 0 < cmpAtt (orZero p.passing_yards) then
    toString (⌈(cmpAtt (orZero p.passing_yards) : ℚ) * (65/100)⌉ : Int)
      ++ "-" ++ toString (cmpAtt (orZero p.passing_yards))
  else "-"

/-- Modelled from the spec sentence of the claim: attempts =
`ceil(passing_yards / 8.5)` when `passing_yards > 0` and 0 otherwise;
completions = `ceil(attempts * 0.65)`; `'-'` is shown when attempts
= 0. -/
def specAtt (py : Int) : Int := if 0 < py then ⌈(py : ℚ) / (17/2)⌉ else 0

def specCmpAtt (py : Int) : String :=
  if specAtt py = 0 then "-"
  else toString (⌈(specAtt py : ℚ) * (65/100)⌉ : Int) ++ "-"
    ++ toString (specAtt py)

/-- C9: the displayed completions–attempts value is synthesized from
passing yards alone by the claimed formula; in particular it is
unchanged when the record's actual `passing_attempts` feed field
changes, so it never reflects real completion/attempt statistics. -/
theorem cmpAtt_synthesized (p : Player) (n : Option Int) :
    cmpAttDisplay p = specCmpAtt (orZero p.passing_yards) ∧
    cmpAttDisplay { p with passing_attempts := n } = cmpAttDisplay p := by
  refine ⟨?_, rfl⟩
  unfold cmpAttDisplay specCmpAtt specAtt cmpAtt
  by_cases hpy : 0 < orZero p.passing_yards
  · have hpos : (0 : Int) < ⌈(orZero p.passing_yards : ℚ) / (17/2)⌉ := by
      rw [Int.ceil_pos]
      apply div_pos
      · exact_mod_cast hpy
      · norm_num
    rw [if_pos hpy, if_pos hpos, if_neg (by omega)]
  · rw [if_neg hpy]
    norm_num

/-- The CSV row built from one player by `exportData` (App.js lines
762–772): ordered object keys and their rendered values.  The `Snaps`
value takes the raw `snap_percentage` with no `|| 0`; an absent value
is rendered as the empty string by `Array.prototype.join`. -/
def csvField (v : Option ℚ) : String :=
  match v with
  | none => ""
  | some x => if x.den = 1 then toString x.num else toString x

def csvRow (isPPR : Bool) (p : Player) : List (String × String) :=
  [("Player", p.player_name), ("Team", p.team), ("Position", p.position),
   ("Fantasy_Points", calculateFantasyPoints p isPPR),
   ("Snaps", csvField p.snap_percentage),
   ("Rushing_Yards", toString (orZero p.rushing_yards)),
   ("Receiving_Yards", toString (orZero p.receiving_yards)),
   ("Passing_Yards", toString (orZero p.passing_yards)),
   ("DK_Salary", toString (orZero p.dk_salary))]

/-- `exportData` (App.js lines 761–788): maps the filtered players to
CSV rows, then builds
`[Object.keys(csvData[0]).join(','), ...csvData.map(row =>
Object.values(row).join(','))].join('\n')`.  When the filtered list is
empty, `csvData[0]` is `undefined` and `Object.keys(undefined)` throws
a `TypeError`. -/
def exportData (isPPR : Bool) (filteredPlayers : List Player) :
    Except String String :=
  match filteredPlayers.map (csvRow isPPR) with
  | [] => Except.error "TypeError: Cannot convert undefined or null to object"
  | r :: rest =>
      Except.ok (String.intercalate "\n"
        (String.intercalate "," (r.map Prod.fst)
          :: (r :: rest).map (fun row =>
                String.intercalate "," (row.map Prod.snd))))

/-- C10: exporting with every player filtered out throws (the model's
`Except.error`) instead of producing an empty CSV or a user-facing
message, while any non-empty filtered list exports successfully. -/
theorem exportData_empty_throws :
    (∀ isPPR, exportData isPPR []
      = Except.error "TypeError: Cannot convert undefined or null to object") ∧
    (∀ (isPPR : Bool) (ps : List Player), ps ≠ [] →
      ∃ s, exportData isPPR ps = Except.ok s) := by
  refine ⟨fun isPPR => rfl, fun isPPR ps hps => ?_⟩
  cases ps with
  | nil => exact absurd rfl hps
  | cons p rest => exact ⟨_, rfl⟩

/-- C10 witness: the empty filtered list errors; a one-player list
exports. -/
theorem exportData_empty_throws_witness :
    exportData true []
      = Except.error "TypeError: Cannot convert undefined or null to object" ∧
    ∃ s, exportData true [pyOne] = Except.ok s :=
  ⟨exportData_empty_throws.1 true,
   exportData_empty_throws.2 true [pyOne] (by decide)⟩

end TheHub
